import Mathlib

/-
Verification of the ACL security module (repoze/bfg/security.py).

The module is Python 2 code.  The shallow embedding below follows the
source line by line:

  * Val models the Python values the module manipulates: booleans,
    integers, strings, None, and (nested) list/tuple sequences.  A string
    is atomic: in Python 2 a str has no attribute named iter-dunder, so
    the flatten helper never walks into it.
  * pyEq models the Python equality operator on these values (True == 1,
    lists compare elementwise, values of different shapes are unequal).
  * pyTruthy models bool(x): nonzero numbers, nonempty strings and
    nonempty lists are truthy; None, 0, empty string, empty list, False
    are falsy.
  * A Python exception used for control flow (NoAuthorizationInformation)
    or raised by iterating a non-iterable (TypeError in flatten) is made
    explicit with Except AuthSignal.
  * getattr(context, acl-attribute, None) is modelled by Node.aclAttr:
    the outer Option is attribute presence, the inner Option is the
    attribute being Python None (so Node.mk none p and
    Node.mk (some none) p both read back as no ACL).
  * repr(context), stored by PermitsResult, is modelled by keeping the
    node value itself in the record.
  * request.environ is modelled by a record holding the two keys the
    module ever reads: REMOTE_USER and the identity mapping.
-/

inductive Val where
  | vbool : Bool → Val
  | vint : Int → Val
  | vstr : String → Val
  | vnone : Val
  | vlist : List Val → Val

mutual

/-- Python equality on embedded values. -/
def pyEq : Val → Val → Bool
  | .vbool a, .vbool b => a == b
  | .vbool a, .vint n => (if a then (1 : Int) else 0) == n
  | .vint n, .vbool a => n == (if a then (1 : Int) else 0)
  | .vint m, .vint n => m == n
  | .vstr s, .vstr t => s == t
  | .vnone, .vnone => true
  | .vlist xs, .vlist ys => pyEqList xs ys
  | _, _ => false

/-- Python equality on lists, elementwise. -/
def pyEqList : List Val → List Val → Bool
  | [], [] => true
  | a :: as, b :: bs => pyEq a b && pyEqList as bs
  | _, _ => false

end

/-- Python truthiness, bool(x). -/
def pyTruthy : Val → Bool
  | .vbool b => b
  | .vint n => n != 0
  | .vstr s => s != ""
  | .vnone => false
  | .vlist xs => !xs.isEmpty

mutual

/-- flatten(x) restricted to a list argument: walk the elements in order,
splicing in the recursive flattening of every iterable non-string element
and keeping every other element as is (security.py lines 250-256). -/
def flattenList : List Val → List Val
  | [] => []
  | el :: rest => flattenEl el ++ flattenList rest

/-- Contribution of one element of the iterated sequence: a list (the only
embedded value with an iter attribute besides strings, which are excluded
by the isinstance basestring test) is flattened recursively; any other
element is appended unchanged (security.py lines 252-255). -/
def flattenEl : Val → List Val
  | .vlist ys => flattenList ys
  | v => [v]

end

/-- flatten(x) at top level (security.py lines 236-256): a string is
returned as a one-element list; a list is walked; iterating any other
value raises a Python TypeError, modelled as none. -/
def flatten : Val → Option (List Val)
  | .vstr s => some [.vstr s]
  | .vlist xs => some (flattenList xs)
  | _ => none

/-- The Everyone pseudo-principal constant. -/
def Everyone : Val := .vstr "system.Everyone"

/-- The Authenticated pseudo-principal constant. -/
def Authenticated : Val := .vstr "system.Authenticated"

/-- The Allow ACE action constant. -/
def Allow : Val := .vstr "Allow"

/-- The Deny ACE action constant. -/
def Deny : Val := .vstr "Deny"

/-- An ACE tuple (action, principal, permissions) as unpacked on
security.py line 68.  The principal and permissions fields are arbitrary
embedded values (a single string or a nested sequence). -/
structure ACE where
  action : Val
  principal : Val
  permissions : Val

/-- A model node: the acl attribute (outer Option: attribute present at
all; inner Option: attribute holding Python None versus an actual list of
ACEs) and the parent link used by LocationIterator. -/
inductive Node where
  | mk (aclAttr : Option (Option (List ACE))) (parent : Option Node)

/-- The acl attribute slot of a node. -/
def Node.aclAttr : Node → Option (Option (List ACE))
  | .mk a _ => a

/-- The parent link of a node. -/
def Node.parent : Node → Option Node
  | .mk _ p => p

/-- zope.location LocationIterator: the node itself, then its parents up
to and including the root, closest first. -/
def LocationIterator : Node → List Node
  | .mk a none => [Node.mk a none]
  | .mk a (some p) => Node.mk a (some p) :: LocationIterator p

/-- The record shared by Allowed and Denied (security.py lines 197-203):
the deciding ace (or none), the acl consulted, the permission requested,
the principals supplied, and the context evaluated. -/
structure PermitsResult where
  ace : Option ACE
  acl : List ACE
  permission : Val
  principals : List Val
  context : Node

/-- The two result classes: Allowed wraps the record with truthy boolean
behaviour, Denied with falsy boolean behaviour. -/
inductive Decision where
  | allowed : PermitsResult → Decision
  | denied : PermitsResult → Decision

/-- The nonzero dunder method: Allowed is true in a boolean context,
Denied is false (security.py lines 218-219 and 230-231). -/
def Decision.nonzero : Decision → Bool
  | .allowed _ => true
  | .denied _ => false

/-- The eq dunder method: Denied equals other iff bool(other) is False;
Allowed equals other iff bool(other) is True (security.py lines 221-222
and 233-234).  Neither consults the stored record. -/
def Decision.pyEqVal : Decision → Val → Bool
  | .allowed _, other => pyTruthy other == true
  | .denied _, other => pyTruthy other == false

/-- Exceptions that can escape ACLAuthorizer.permits:
NoAuthorizationInformation (security.py line 65) and the TypeError that
Python flatten raises on a non-iterable non-string argument. -/
inductive AuthSignal where
  | noAuthInfo : AuthSignal
  | typeError : AuthSignal

/-- ACLAuthorizer.get_acl (security.py lines 59-60):
getattr(self.context, acl-attribute, None). -/
def ACLAuthorizer.get_acl (context : Node) : Option (List ACE) :=
  match context.aclAttr with
  | some v => v
  | none => none

/-- The inner loop of ACLAuthorizer.permits (security.py lines 69-82):
scan the flattened caller principals; on the first one equal to the ACE
principal field, flatten the ACE permissions field and test membership of
the requested permission.  Returns ok true on a conclusive match, ok false
when the principal list is exhausted without one. -/
def aceScanPrincipals (permission : Val) (ace : ACE) : List Val → Except AuthSignal Bool
  | [] => Except.ok false
  | p :: rest =>
    if pyEq ace.principal p then
      match flatten ace.permissions with
      | none => Except.error AuthSignal.typeError
      | some permissions =>
        if permissions.any (fun q => pyEq permission q) then Except.ok true
        else aceScanPrincipals permission ace rest
    else aceScanPrincipals permission ace rest

/-- The outer loop of ACLAuthorizer.permits (security.py lines 67-85):
iterate the ACEs in acl order; the first conclusive match returns Allowed
when the ACE action equals Allow and Denied otherwise; an exhausted ACL
returns Denied with no deciding ace. -/
def aclScan (context : Node) (permission : Val) (principals : List Val)
    (acl : List ACE) : List ACE → Except AuthSignal Decision
  | [] => Except.ok (Decision.denied (PermitsResult.mk none acl permission principals context))
  | ace :: rest =>
    match aceScanPrincipals permission ace (flattenList principals) with
    | Except.error e => Except.error e
    | Except.ok true =>
      if pyEq ace.action Allow then
        Except.ok (Decision.allowed (PermitsResult.mk (some ace) acl permission principals context))
      else
        Except.ok (Decision.denied (PermitsResult.mk (some ace) acl permission principals context))
    | Except.ok false => aclScan context permission principals acl rest

/-- ACLAuthorizer.permits (security.py lines 62-85): read the acl
attribute; if it reads back as None raise NoAuthorizationInformation,
otherwise scan the ACL. -/
def ACLAuthorizer.permits (context : Node) (permission : Val) (principals : List Val) :
    Except AuthSignal Decision :=
  match ACLAuthorizer.get_acl context with
  | none => Except.error AuthSignal.noAuthInfo
  | some acl => aclScan context permission principals acl acl

/-- The request environment, restricted to the two keys the module reads:
environ.get of REMOTE_USER and environ.get of the repoze.who identity. -/
structure WhoIdentity where
  userid : Val
  groups : Option (List Val)

/-- A request carries only its environ in this module; environ is
modelled by its two consulted keys. -/
structure Request where
  remoteUser : Option Val
  whoIdentity : Option WhoIdentity

/-- ACLSecurityPolicy.effective_principals (security.py lines 113-121):
start from the Everyone singleton; when the resolved principal list is
truthy (nonempty) append Authenticated and then the resolved principals. -/
def ACLSecurityPolicy.effective_principals (get_principals : Request → List Val)
    (request : Request) : List Val :=
  let principal_ids := get_principals request
  if principal_ids.isEmpty then [Everyone]
  else Everyone :: Authenticated :: principal_ids

/-- ACLSecurityPolicy.authenticated_userid (security.py lines 108-111):
the first resolved principal, or None when the resolver returns none. -/
def ACLSecurityPolicy.authenticated_userid (get_principals : Request → List Val)
    (request : Request) : Option Val :=
  (get_principals request).head?

/-- The result of ACLSecurityPolicy.permits and has_permission: either a
Decision object or a bare Python boolean. -/
inductive PolicyAnswer where
  | decision : Decision → PolicyAnswer
  | rawBool : Bool → PolicyAnswer

/-- The loop of ACLSecurityPolicy.permits (security.py lines 99-106):
for each location returned by LocationIterator, return the authorizer
verdict, continuing to the next ancestor only on
NoAuthorizationInformation; an exhausted chain returns bare False. -/
def locationScan (permission : Val) (principals : List Val) :
    List Node → Except AuthSignal PolicyAnswer
  | [] => Except.ok (PolicyAnswer.rawBool false)
  | loc :: rest =>
    match ACLAuthorizer.permits loc permission principals with
    | Except.ok d => Except.ok (PolicyAnswer.decision d)
    | Except.error AuthSignal.noAuthInfo => locationScan permission principals rest
    | Except.error e => Except.error e

/-- ACLSecurityPolicy.permits (security.py lines 95-106). -/
def ACLSecurityPolicy.permits (get_principals : Request → List Val) (context : Node)
    (request : Request) (permission : Val) : Except AuthSignal PolicyAnswer :=
  locationScan permission (ACLSecurityPolicy.effective_principals get_principals request)
    (LocationIterator context)

/-- Module level has_permission (security.py lines 20-32): when the
registry holds no security policy return bare True, otherwise delegate to
the policy.  The registry lookup result is the Option argument, carrying
the configured principal resolver when a policy exists. -/
def has_permission (policy : Option (Request → List Val)) (permission : Val)
    (context : Node) (request : Request) : Except AuthSignal PolicyAnswer :=
  match policy with
  | none => Except.ok (PolicyAnswer.rawBool true)
  | some get_principals => ACLSecurityPolicy.permits get_principals context request permission

/-- get_remoteuser (security.py lines 139-143): environ.get of
REMOTE_USER, defaulting to None; a truthy value yields a singleton list,
anything else the empty list. -/
def get_remoteuser (request : Request) : List Val :=
  let user_id := request.remoteUser.getD Val.vnone
  if pyTruthy user_id then [user_id] else []

/-- get_who_principals (security.py lines 166-172): a missing identity
mapping yields the empty list; otherwise the required userid entry
followed by the groups entry, defaulting to the empty list.  (An identity
mapping always holds its userid key, so it is a nonempty, truthy dict.) -/
def get_who_principals (request : Request) : List Val :=
  match request.whoIdentity with
  | none => []
  | some identity => identity.userid :: identity.groups.getD []

/-- A value that the flatten helper treats as a sequence (has an iter
attribute and is not a string). -/
def isSeq : Val → Bool
  | .vlist _ => true
  | _ => false

/-- The requested permission is a member, under Python equality, of the
flattening of the ACE permissions field (false when that field is not
flattenable). -/
def permContained (permission : Val) (ace : ACE) : Bool :=
  ((flatten ace.permissions).getD []).any fun q => pyEq permission q

/-- An ACE matches: its principal field equals, under Python equality,
one of the flattened caller principals, and the requested permission is
contained in its flattened permissions field. -/
abbrev aceMatches (permission : Val) (principals : List Val) (ace : ACE) : Prop :=
  (∃ p ∈ flattenList principals, pyEq ace.principal p = true) ∧
    permContained permission ace = true

theorem flattenEl_atom (v : Val) (h : isSeq v = false) : flattenEl v = [v] := by
  cases v <;> simp_all [isSeq, flattenEl]

mutual

theorem flattenList_not_seq (xs : List Val) : ∀ v ∈ flattenList xs, isSeq v = false := by
  cases xs with
  | nil => simp [flattenList]
  | cons el rest =>
    intro v hv
    rw [flattenList] at hv
    rcases List.mem_append.mp hv with h | h
    · exact flattenEl_not_seq el v h
    · exact flattenList_not_seq rest v h

theorem flattenEl_not_seq (w : Val) : ∀ v ∈ flattenEl w, isSeq v = false := by
  cases w with
  | vlist ys => intro v hv; rw [flattenEl] at hv; exact flattenList_not_seq ys v hv
  | vbool b => intro v hv; simp [flattenEl] at hv; simp [hv, isSeq]
  | vint n => intro v hv; simp [flattenEl] at hv; simp [hv, isSeq]
  | vstr s => intro v hv; simp [flattenEl] at hv; simp [hv, isSeq]
  | vnone => intro v hv; simp [flattenEl] at hv; simp [hv, isSeq]

end

theorem flattenList_of_atoms (xs : List Val) (h : ∀ v ∈ xs, isSeq v = false) :
    flattenList xs = xs := by
  induction xs with
  | nil => rfl
  | cons a rest ih =>
    rw [flattenList, flattenEl_atom a (h a (by simp))]
    simp [ih fun v hv => h v (List.mem_cons_of_mem _ hv)]

theorem flattenList_idem (xs : List Val) :
    flattenList (flattenList xs) = flattenList xs :=
  flattenList_of_atoms _ (flattenList_not_seq xs)

theorem pyEq_seq_atom (ys : List Val) (p : Val) (h : isSeq p = false) :
    pyEq (Val.vlist ys) p = false := by
  cases p <;> simp_all [pyEq, isSeq]

theorem aceScanPrincipals_all_unequal (permission : Val) (ace : ACE) (l : List Val)
    (h : ∀ p ∈ l, pyEq ace.principal p = false) :
    aceScanPrincipals permission ace l = Except.ok false := by
  induction l with
  | nil => rfl
  | cons p rest ih =>
    simp only [aceScanPrincipals, h p (by simp)]
    exact ih fun q hq => h q (List.mem_cons_of_mem _ hq)

theorem aceScanPrincipals_of_match (permission : Val) (ace : ACE) (l : List Val)
    (hp : ∃ p ∈ l, pyEq ace.principal p = true)
    (hc : permContained permission ace = true) :
    aceScanPrincipals permission ace l = Except.ok true := by
  induction l with
  | nil => simp at hp
  | cons p rest ih =>
    obtain ⟨q, hq, hqe⟩ := hp
    cases hpp : pyEq ace.principal p with
    | true =>
      cases hf : flatten ace.permissions with
      | none => rw [permContained, hf] at hc; simp at hc
      | some perms =>
        have hany : perms.any (fun q => pyEq permission q) = true := by
          rw [permContained, hf] at hc; simpa using hc
        simp [aceScanPrincipals, hpp, hf, hany]
    | false =>
      have hqr : q ∈ rest := by
        rcases List.mem_cons.mp hq with h | h
        · rw [h] at hqe; exact absurd hqe (by simp [hpp])
        · exact h
      simp only [aceScanPrincipals, hpp, Bool.false_eq_true, if_false]
      exact ih ⟨q, hqr, hqe⟩

theorem aceScanPrincipals_of_no_match (permission : Val) (ace : ACE) (l : List Val)
    (hsome : (flatten ace.permissions).isSome = true)
    (hnm : ¬ ((∃ p ∈ l, pyEq ace.principal p = true) ∧ permContained permission ace = true)) :
    aceScanPrincipals permission ace l = Except.ok false := by
  induction l with
  | nil => rfl
  | cons p rest ih =>
    cases hpp : pyEq ace.principal p with
    | false =>
      simp only [aceScanPrincipals, hpp, Bool.false_eq_true, if_false]
      exact ih fun ⟨⟨q, hq, hqe⟩, hc⟩ => hnm ⟨⟨q, List.mem_cons_of_mem _ hq, hqe⟩, hc⟩
    | true =>
      obtain ⟨perms, hf⟩ := Option.isSome_iff_exists.mp hsome
      have hany : perms.any (fun q => pyEq permission q) = false := by
        cases hca : perms.any (fun q => pyEq permission q) with
        | false => rfl
        | true =>
          have hcont : permContained permission ace = true := by
            rw [permContained, hf]; simpa using hca
          exact absurd ⟨⟨p, List.mem_cons_self _ _, hpp⟩, hcont⟩ hnm
      simp only [aceScanPrincipals, hpp, if_true, hf, hany, Bool.false_eq_true, if_false]
      exact ih fun ⟨⟨q, hq, hqe⟩, hc⟩ => hnm ⟨⟨q, List.mem_cons_of_mem _ hq, hqe⟩, hc⟩

theorem aclScan_skip (context : Node) (permission : Val) (principals : List Val)
    (acl : List ACE) (acl₁ l : List ACE)
    (h1 : ∀ a ∈ acl₁, ¬ aceMatches permission principals a)
    (h1s : ∀ a ∈ acl₁, (flatten a.permissions).isSome = true) :
    aclScan context permission principals acl (acl₁ ++ l) =
      aclScan context permission principals acl l := by
  induction acl₁ with
  | nil => rfl
  | cons a as ih =>
    have hscan := aceScanPrincipals_of_no_match permission a (flattenList principals)
      (h1s a (by simp)) (h1 a (by simp))
    rw [List.cons_append]
    simp only [aclScan, hscan]
    exact ih (fun b hb => h1 b (List.mem_cons_of_mem _ hb))
      (fun b hb => h1s b (List.mem_cons_of_mem _ hb))

theorem aclScan_conclusive (context : Node) (permission : Val) (principals : List Val)
    (acl : List ACE) (ace : ACE) (l : List ACE)
    (hm : aceMatches permission principals ace) :
    aclScan context permission principals acl (ace :: l) =
      (if pyEq ace.action Allow then
        Except.ok (Decision.allowed (PermitsResult.mk (some ace) acl permission principals context))
      else
        Except.ok (Decision.denied (PermitsResult.mk (some ace) acl permission principals context))) := by
  have hscan := aceScanPrincipals_of_match permission ace (flattenList principals) hm.1 hm.2
  simp only [aclScan, hscan]

theorem locationScan_absent (permission : Val) (principals : List Val) (locs : List Node)
    (h : ∀ n ∈ locs, n.aclAttr = none) :
    locationScan permission principals locs = Except.ok (PolicyAnswer.rawBool false) := by
  induction locs with
  | nil => rfl
  | cons loc rest ih =>
    have hl : ACLAuthorizer.permits loc permission principals =
        Except.error AuthSignal.noAuthInfo := by
      rw [ACLAuthorizer.permits, ACLAuthorizer.get_acl, h loc (by simp)]
    simp only [locationScan, hl]
    exact ih fun n hn => h n (List.mem_cons_of_mem _ hn)

/-- C1, counterexample: an ACL whose single Allow ACE nests the principal
george one level deep in its principal field, evaluated for permission
view with caller principal set containing exactly the atomic george.
Flattening the ACE principal field would yield exactly that atomic
principal, yet evaluation finds no match: it returns the implicit deny,
a Denied decision with no deciding ACE.  The ACE principal field is
therefore not flattened before comparison. -/
theorem C1_principal_field_not_flattened_counterexample :
    flattenList [Val.vlist [Val.vstr "george"]] = [Val.vstr "george"] ∧
    ACLAuthorizer.permits
      (Node.mk (some (some [ACE.mk Allow (Val.vlist [Val.vstr "george"]) (Val.vstr "view")])) none)
      (Val.vstr "view") [Val.vstr "george"] =
      Except.ok (Decision.denied (PermitsResult.mk none
        [ACE.mk Allow (Val.vlist [Val.vstr "george"]) (Val.vstr "view")]
        (Val.vstr "view") [Val.vstr "george"]
        (Node.mk (some (some [ACE.mk Allow (Val.vlist [Val.vstr "george"]) (Val.vstr "view")])) none))) :=
  ⟨rfl, rfl⟩

/-- C1, amended: the caller-supplied principal collection and the ACE
permission field are flattened before comparison, so any ACE whose whole
principal field equals one of the flattened caller principals and whose
flattened permission field contains the requested permission is reported
as a match, however deeply either collection nests; but the ACE principal
field itself is not flattened: it is compared as a whole, so an ACE whose
principal field is a sequence (a nested principal group) never matches
any of the caller's flattened atomic principals, and the scan of that ACE
always reports no match. -/
theorem C1_principal_field_compared_unflattened (permission : Val) (principals : List Val)
    (ace : ACE) (ys : List Val)
    (hnest : ace.principal = Val.vlist ys)
    (hatoms : ∀ p ∈ flattenList principals, isSeq p = false) :
    aceScanPrincipals permission ace (flattenList principals) = Except.ok false ∧
    (∀ b : ACE, (∃ p ∈ flattenList principals, pyEq b.principal p = true) →
      permContained permission b = true →
      aceScanPrincipals permission b (flattenList principals) = Except.ok true) :=
  ⟨aceScanPrincipals_all_unequal permission ace (flattenList principals)
    fun p hp => by rw [hnest]; exact pyEq_seq_atom ys p (hatoms p hp),
   fun b hb hc => aceScanPrincipals_of_match permission b (flattenList principals) hb hc⟩

/-- C1, witness: the amended theorem applied at the counterexample input. -/
theorem C1_principal_field_compared_unflattened_witness :
    aceScanPrincipals (Val.vstr "view")
      (ACE.mk Allow (Val.vlist [Val.vstr "george"]) (Val.vstr "view"))
      (flattenList [Val.vstr "george"]) = Except.ok false :=
  (C1_principal_field_compared_unflattened (Val.vstr "view") [Val.vstr "george"]
    (ACE.mk Allow (Val.vlist [Val.vstr "george"]) (Val.vstr "view"))
    [Val.vstr "george"] rfl (by decide)).1

/-- C2: first match wins.  For every ACL split as a prefix of ACEs none
of which matches (principal equal to a flattened caller principal and
requested permission contained in the flattened permission field),
followed by a matching ACE and an arbitrary suffix, the authorizer
verdict is decided by the matching ACE alone: Allowed when its action
equals Allow, Denied otherwise, with that ACE recorded as deciding; the
suffix, which may hold further matching ACEs, is never consulted. -/
theorem C2_first_match_wins (acl₁ : List ACE) (ace : ACE) (acl₂ : List ACE)
    (permission : Val) (principals : List Val) (par : Option Node)
    (h1 : ∀ a ∈ acl₁, ¬ aceMatches permission principals a)
    (h1s : ∀ a ∈ acl₁, (flatten a.permissions).isSome = true)
    (h2 : aceMatches permission principals ace) :
    ACLAuthorizer.permits (Node.mk (some (some (acl₁ ++ ace :: acl₂))) par)
        permission principals =
      (if pyEq ace.action Allow then
        Except.ok (Decision.allowed (PermitsResult.mk (some ace) (acl₁ ++ ace :: acl₂)
          permission principals (Node.mk (some (some (acl₁ ++ ace :: acl₂))) par)))
      else
        Except.ok (Decision.denied (PermitsResult.mk (some ace) (acl₁ ++ ace :: acl₂)
          permission principals (Node.mk (some (some (acl₁ ++ ace :: acl₂))) par)))) := by
  rw [ACLAuthorizer.permits, ACLAuthorizer.get_acl]
  show aclScan _ _ _ _ (acl₁ ++ ace :: acl₂) = _
  rw [aclScan_skip _ _ _ _ acl₁ (ace :: acl₂) h1 h1s,
    aclScan_conclusive _ _ _ _ ace acl₂ h2]

/-- C2, witness: the Deny Everyone ACE in the middle decides, even though
a later ACE would allow george. -/
theorem C2_first_match_wins_witness :
    ACLAuthorizer.permits
      (Node.mk (some (some [ACE.mk Allow (Val.vstr "fred") (Val.vstr "view"),
                            ACE.mk Deny Everyone (Val.vstr "view"),
                            ACE.mk Allow (Val.vstr "george") (Val.vstr "view")])) none)
      (Val.vstr "view") [Everyone, Authenticated, Val.vstr "george"] =
      Except.ok (Decision.denied (PermitsResult.mk
        (some (ACE.mk Deny Everyone (Val.vstr "view")))
        [ACE.mk Allow (Val.vstr "fred") (Val.vstr "view"),
         ACE.mk Deny Everyone (Val.vstr "view"),
         ACE.mk Allow (Val.vstr "george") (Val.vstr "view")]
        (Val.vstr "view") [Everyone, Authenticated, Val.vstr "george"]
        (Node.mk (some (some [ACE.mk Allow (Val.vstr "fred") (Val.vstr "view"),
                              ACE.mk Deny Everyone (Val.vstr "view"),
                              ACE.mk Allow (Val.vstr "george") (Val.vstr "view")])) none))) := by
  have h := C2_first_match_wins [ACE.mk Allow (Val.vstr "fred") (Val.vstr "view")]
    (ACE.mk Deny Everyone (Val.vstr "view"))
    [ACE.mk Allow (Val.vstr "george") (Val.vstr "view")]
    (Val.vstr "view") [Everyone, Authenticated, Val.vstr "george"] none
    (by decide) (by decide) (by decide)
  simpa using h

/-- C3: a node whose ACL is present (possibly empty) but holds no ACE
matching the requested permission and the effective principals yields,
through the hierarchical policy, a Denied decision carrying no deciding
ACE and referencing the consulted ACL, and the ancestor walk stops at
that node: the result is the same for every parent chain. -/
theorem C3_implicit_deny_stops_walk (acl : List ACE) (par : Option Node)
    (gp : Request → List Val) (req : Request) (permission : Val)
    (h1 : ∀ a ∈ acl, ¬ aceMatches permission
      (ACLSecurityPolicy.effective_principals gp req) a)
    (h1s : ∀ a ∈ acl, (flatten a.permissions).isSome = true) :
    ACLSecurityPolicy.permits gp (Node.mk (some (some acl)) par) req permission =
      Except.ok (PolicyAnswer.decision (Decision.denied (PermitsResult.mk none acl permission
        (ACLSecurityPolicy.effective_principals gp req)
        (Node.mk (some (some acl)) par)))) := by
  have hperm : ACLAuthorizer.permits (Node.mk (some (some acl)) par) permission
      (ACLSecurityPolicy.effective_principals gp req) =
      Except.ok (Decision.denied (PermitsResult.mk none acl permission
        (ACLSecurityPolicy.effective_principals gp req)
        (Node.mk (some (some acl)) par))) := by
    rw [ACLAuthorizer.permits, ACLAuthorizer.get_acl]
    show aclScan _ _ _ _ acl = _
    have h := aclScan_skip (Node.mk (some (some acl)) par) permission
      (ACLSecurityPolicy.effective_principals gp req) acl acl [] h1 h1s
    rw [List.append_nil] at h
    rw [h]
    rfl
  cases par with
  | none => rw [ACLSecurityPolicy.permits, LocationIterator, locationScan, hperm]
  | some p => rw [ACLSecurityPolicy.permits, LocationIterator, locationScan, hperm]

/-- C3, witness: an empty ACL on the target denies with no deciding ACE
and stops the walk, although the parent carries an Allow Everyone ACE. -/
theorem C3_implicit_deny_stops_walk_witness :
    ACLSecurityPolicy.permits (fun _ => [Val.vstr "george"])
      (Node.mk (some (some []))
        (some (Node.mk (some (some [ACE.mk Allow Everyone (Val.vstr "view")])) none)))
      (Request.mk none none) (Val.vstr "view") =
      Except.ok (PolicyAnswer.decision (Decision.denied (PermitsResult.mk none [] (Val.vstr "view")
        [Everyone, Authenticated, Val.vstr "george"]
        (Node.mk (some (some []))
          (some (Node.mk (some (some [ACE.mk Allow Everyone (Val.vstr "view")])) none)))))) := by
  have h := C3_implicit_deny_stops_walk []
    (some (Node.mk (some (some [ACE.mk Allow Everyone (Val.vstr "view")])) none))
    (fun _ => [Val.vstr "george"]) (Request.mk none none) (Val.vstr "view")
    (by simp) (by simp)
  simpa using h

/-- C4: a node without the ACL attribute defers to its parent (the policy
result on it equals the policy result on the parent), and when every node
of the ancestor chain lacks the attribute the policy returns the bare
boolean false rather than a Denied decision. -/
theorem C4_absent_acl_walks_then_bare_false (gp : Request → List Val) (req : Request)
    (permission : Val) :
    (∀ p : Node, ACLSecurityPolicy.permits gp (Node.mk none (some p)) req permission =
      ACLSecurityPolicy.permits gp p req permission) ∧
    (∀ node : Node, (∀ n ∈ LocationIterator node, n.aclAttr = none) →
      ACLSecurityPolicy.permits gp node req permission =
        Except.ok (PolicyAnswer.rawBool false)) := by
  constructor
  · intro p
    rw [ACLSecurityPolicy.permits, ACLSecurityPolicy.permits, LocationIterator, locationScan]
    rfl
  · intro node h
    rw [ACLSecurityPolicy.permits]
    exact locationScan_absent permission _ (LocationIterator node) h

/-- C4, witness: a two-node chain with no ACL attribute anywhere yields
bare false. -/
theorem C4_absent_acl_walks_then_bare_false_witness :
    ACLSecurityPolicy.permits (fun _ => [Val.vstr "george"])
      (Node.mk none (some (Node.mk none none))) (Request.mk none none) (Val.vstr "view") =
      Except.ok (PolicyAnswer.rawBool false) :=
  (C4_absent_acl_walks_then_bare_false (fun _ => [Val.vstr "george"])
    (Request.mk none none) (Val.vstr "view")).2
    (Node.mk none (some (Node.mk none none)))
    (by simp [LocationIterator, Node.aclAttr])

/-- C5: the effective principal list is exactly the Everyone singleton
when the resolver yields nothing, and exactly Everyone, Authenticated,
then the raw principals in resolver order when it yields at least one. -/
theorem C5_effective_principals_shape (gp : Request → List Val) (req : Request) :
    (gp req = [] → ACLSecurityPolicy.effective_principals gp req = [Everyone]) ∧
    (gp req ≠ [] → ACLSecurityPolicy.effective_principals gp req =
      Everyone :: Authenticated :: gp req) := by
  constructor <;> intro h <;>
    simp [ACLSecurityPolicy.effective_principals, h]

/-- C5, witness: a resolver yielding exactly george gives Everyone,
Authenticated, george in that order. -/
theorem C5_effective_principals_shape_witness :
    ACLSecurityPolicy.effective_principals (fun _ => [Val.vstr "george"])
      (Request.mk none none) = [Everyone, Authenticated, Val.vstr "george"] :=
  (C5_effective_principals_shape (fun _ => [Val.vstr "george"]) (Request.mk none none)).2
    (by simp)

/-- C6: flatten yields an order-preserving flat list of atomic values
(no element of the output is itself a sequence), is the identity on
already-flat lists of atoms, is idempotent, never decomposes a string
into characters, and flattens the documented nested example to the
documented flat list. -/
theorem C6_flatten_properties :
    (∀ xs : List Val, ∀ v ∈ flattenList xs, isSeq v = false) ∧
    (∀ xs : List Val, (∀ v ∈ xs, isSeq v = false) → flattenList xs = xs) ∧
    (∀ xs : List Val, flattenList (flattenList xs) = flattenList xs) ∧
    (∀ s : String, flatten (Val.vstr s) = some [Val.vstr s]) ∧
    flattenList [Val.vstr "a", Val.vlist [Val.vstr "b", Val.vlist [Val.vstr "c"]], Val.vstr "de"]
      = [Val.vstr "a", Val.vstr "b", Val.vstr "c", Val.vstr "de"] :=
  ⟨flattenList_not_seq, flattenList_of_atoms, flattenList_idem, fun _ => rfl, rfl⟩

/-- C6, witness: identity on an already-flat list of atoms. -/
theorem C6_flatten_properties_witness :
    flattenList [Val.vstr "a", Val.vstr "de", Val.vint 3] =
      [Val.vstr "a", Val.vstr "de", Val.vint 3] :=
  C6_flatten_properties.2.1 [Val.vstr "a", Val.vstr "de", Val.vint 3] (by decide)

/-- C7: whatever record a Denied carries, it equals exactly the values
whose boolean interpretation is false (among them False and 0), an
Allowed equals exactly the values whose boolean interpretation is true
(among them True and 1), and in a boolean context Denied is false and
Allowed is true. -/
theorem C7_boolean_semantics :
    (∀ r : PermitsResult, ∀ v : Val,
      Decision.pyEqVal (Decision.denied r) v = true ↔ pyTruthy v = false) ∧
    (∀ r : PermitsResult, ∀ v : Val,
      Decision.pyEqVal (Decision.allowed r) v = true ↔ pyTruthy v = true) ∧
    (∀ r : PermitsResult, Decision.nonzero (Decision.denied r) = false) ∧
    (∀ r : PermitsResult, Decision.nonzero (Decision.allowed r) = true) ∧
    (∀ r : PermitsResult, Decision.pyEqVal (Decision.denied r) (Val.vbool false) = true) ∧
    (∀ r : PermitsResult, Decision.pyEqVal (Decision.denied r) (Val.vint 0) = true) ∧
    (∀ r : PermitsResult, Decision.pyEqVal (Decision.allowed r) (Val.vbool true) = true) ∧
    (∀ r : PermitsResult, Decision.pyEqVal (Decision.allowed r) (Val.vint 1) = true) := by
  refine ⟨fun r v => ?_, fun r v => ?_, fun r => rfl, fun r => rfl,
    fun r => rfl, fun r => rfl, fun r => rfl, fun r => rfl⟩ <;>
    simp [Decision.pyEqVal]

/-- C8: the remote-user resolver yields a singleton exactly for a truthy
remote-user value and the empty list otherwise (including when the key is
absent); the identity resolver yields the userid followed by the groups,
the groups defaulting to the empty list, and the empty list when no
identity is present. -/
theorem C8_reference_resolvers :
    (∀ u : Val, ∀ w : Option WhoIdentity, pyTruthy u = true →
      get_remoteuser (Request.mk (some u) w) = [u]) ∧
    (∀ u : Val, ∀ w : Option WhoIdentity, pyTruthy u = false →
      get_remoteuser (Request.mk (some u) w) = []) ∧
    (∀ w : Option WhoIdentity, get_remoteuser (Request.mk none w) = []) ∧
    (∀ r : Option Val, get_who_principals (Request.mk r none) = []) ∧
    (∀ r : Option Val, ∀ uid : Val, ∀ gs : List Val,
      get_who_principals (Request.mk r (some (WhoIdentity.mk uid (some gs)))) = uid :: gs) ∧
    (∀ r : Option Val, ∀ uid : Val,
      get_who_principals (Request.mk r (some (WhoIdentity.mk uid none))) = [uid]) := by
  refine ⟨fun u w h => ?_, fun u w h => ?_, fun w => rfl, fun r => rfl,
    fun r uid gs => rfl, fun r uid => rfl⟩ <;>
    simp [get_remoteuser, h]

/-- C8, witness: a truthy REMOTE_USER value yields its singleton. -/
theorem C8_reference_resolvers_witness :
    get_remoteuser (Request.mk (some (Val.vstr "bob")) none) = [Val.vstr "bob"] :=
  C8_reference_resolvers.1 (Val.vstr "bob") none rfl

/-- C9: when the policy lookup yields none, has_permission returns the
bare boolean True for every permission, context and request. -/
theorem C9_no_policy_fails_open (permission : Val) (context : Node) (request : Request) :
    has_permission none permission context request =
      Except.ok (PolicyAnswer.rawBool true) :=
  rfl

/-- C10: an ACL attribute set to None is treated exactly like an absent
attribute: the authorizer raises the no-authorization-information signal
instead of returning any decision, and the hierarchical walk continues to
the parent just as for a node with no attribute at all. -/
theorem C10_null_acl_like_absent (permission : Val) (principals : List Val)
    (par : Option Node) (gp : Request → List Val) (req : Request) (p : Node) :
    ACLAuthorizer.permits (Node.mk (some none) par) permission principals =
      Except.error AuthSignal.noAuthInfo ∧
    ACLAuthorizer.permits (Node.mk none par) permission principals =
      Except.error AuthSignal.noAuthInfo ∧
    ACLSecurityPolicy.permits gp (Node.mk (some none) (some p)) req permission =
      ACLSecurityPolicy.permits gp p req permission := by
  refine ⟨rfl, rfl, ?_⟩
  rw [ACLSecurityPolicy.permits, ACLSecurityPolicy.permits, LocationIterator, locationScan]
  rfl
